import Mathlib

/-!
Verification of the core of the QtPyConvert repository.

The development embeds, at the character level, the two regex-based
rewriters of `src/python/qt_py_convert/_modules/psep0101/_qsignal.py`
(`process_connect` and `process_emit`) and the registry utilities of
`src/python/qt_py_convert/general.py` (`merge_dict`, `AliasDictClass`
with its `clean` method, and `ErrorClass.__init__`).

The two Python regular expressions are embedded as explicit scanners
over `List Char`.  Each quantifier of the source pattern is compiled to
its deterministic equivalent, justified case by case:

* `(?:self\.)?`, `(?:QtCore\.)?` — an optional literal whose follower is
  another literal that cannot start at the same characters: consume the
  literal when present, never backtrack.
* `(?:\s+)?` — maximal whitespace run: every use site is followed either
  by a literal that contains no whitespace character, or by a capture
  whose terminator is not a whitespace character, so shortening the run
  can never turn a failure into a success.
* `(?P<owner>.*>?)` followed by `,` — greedy: the scanner prefers to
  extend the owner text (never across a newline, `.` does not match
  newline) and, unwinding, ends the owner at the rightmost comma whose
  continuation succeeds.  The optional `>` is subsumed: the capture is
  the consumed span either way.
* `(?P<args>.*?)\)['\"]` — lazy: the scanner stops at the leftmost
  position where `)` plus a quote is present and the continuation of the
  whole pattern succeeds.
* `(?P<slot>.*?)\)` and `(?P<args>.*?)\)` at the end of a pattern —
  lazy with a trivially succeeding continuation: stop at the first `)`
  of the current line.
* `\w+` followed by `\.` or `\(` — maximal word-character run: a shorter
  run would end at a word character, which is neither `.` nor `(`.

`re.sub` is embedded as a left-to-right scan substituting every
non-overlapping match; every match of either pattern consumes at least
the literal `connect(`/`emit(`, so fuel equal to the input length is
exact.
-/

/-- Python `\s` on the ASCII range: space, tab, newline, carriage
return, form feed, vertical tab. -/
def isPySpace (c : Char) : Bool :=
  c = ' ' || c = '\t' || c = '\n' || c = '\r' || c = '\x0c' || c = '\x0b'

/-- Python `\w` on the ASCII range: letters, digits and underscore. -/
def isWordChar (c : Char) : Bool :=
  c.isAlpha || c.isDigit || c = '_'

/-- The single-quote character, written by code to keep source text free
of bare apostrophes. -/
def squote : Char := Char.ofNat 39

/-- Character class `['\"]` of both patterns: either kind of quote. -/
def isQuote (c : Char) : Bool :=
  c = '"' || c = squote

/-- Deterministic embedding of `(?:\s+)?` at its use sites: drop the
maximal run of whitespace. -/
def skipWs (t : List Char) : List Char :=
  t.dropWhile isPySpace

/-- Match a literal piece of the pattern; return the remainder on
success. -/
def dropLit : List Char → List Char → Option (List Char)
  | [], t => some t
  | _ :: _, [] => none
  | p :: ps, c :: t => if c = p then dropLit ps t else none

/-- Deterministic embedding of an optional literal (`(?:self\.)?`,
`(?:QtCore\.)?`) whose follower rules out the skipped alternative. -/
def dropOpt (pat : List Char) (t : List Char) : List Char :=
  match dropLit pat t with
  | some r => r
  | none => t

/-- Greedy `\w+` capture: the maximal nonempty run of word
characters. -/
def takeWord (t : List Char) : Option (String × List Char) :=
  match t.takeWhile isWordChar with
  | [] => none
  | w => some (String.mk w, t.dropWhile isWordChar)

/-- Capture groups of the CONNECT pattern of `process_connect`; all four
groups participate in every match. -/
structure ConnGroups where
  owner : String
  signal : String
  args : String
  slot : String
deriving DecidableEq, Repr

/-- Capture groups of the EMIT pattern of `process_emit`; the `owner`
group is optional and may not participate (`none`). -/
structure EmitGroups where
  owner : Option String
  signal : String
  arg_types : String
  args : String
deriving DecidableEq, Repr

/-- Tail of the CONNECT pattern: `(?:\s+)?\),(?:\s+)?(?P<slot>.*?)\)`,
after the quote closing the signal descriptor.  Returns the slot capture
and the remainder after the match. -/
def connSlot (acc : List Char) : List Char → Option (String × List Char)
  | [] => none
  | c :: t =>
    if c = ')' then some (String.mk acc, t)
    else if c = '\n' then none
    else connSlot (acc ++ [c]) t

/-- Continuation of the CONNECT pattern after `\)['\"]` has closed the
signal descriptor: whitespace, `\)`, `,`, whitespace, then the lazy slot
capture ended by the first `)`. -/
def connAfterArgs (t : List Char) : Option (String × List Char) :=
  match skipWs t with
  | ')' :: t2 =>
    match t2 with
    | ',' :: t3 => connSlot [] (skipWs t3)
    | _ => none
  | _ => none

/-- Lazy `(?P<args>.*?)` capture of the CONNECT pattern: stop at the
leftmost `)` followed by a quote whose continuation succeeds, otherwise
consume the character (never a newline). -/
def connArgs (acc : List Char) : List Char → Option (String × String × List Char)
  | [] => none
  | c :: t =>
    (match c, t with
     | ')', q :: t2 =>
       if isQuote q then
         match connAfterArgs t2 with
         | some (sl, rest) => some (String.mk acc, sl, rest)
         | none => none
       else none
     | _, _ => none).orElse
    (fun _ => if c = '\n' then none else connArgs (acc ++ [c]) t)

/-- CONNECT pattern from the first comma on:
`(?:\s+)?(?:QtCore\.)?SIGNAL\((?:\s+)?['\"](?P<signal>\w+)\(...`.
Returns signal, args and slot captures plus the remainder. -/
def connAfterOwner (t : List Char) : Option (String × String × String × List Char) :=
  match dropLit "SIGNAL(".data (dropOpt "QtCore.".data t) with
  | none => none
  | some t2 =>
    match skipWs t2 with
    | q :: t3 =>
      if isQuote q then
        match takeWord t3 with
        | some (sig, t4) =>
          match t4 with
          | '(' :: t5 =>
            match connArgs [] t5 with
            | some (ar, sl, rest) => some (sig, ar, sl, rest)
            | none => none
          | _ => none
        | none => none
      else none
    | [] => none

/-- Greedy `(?P<owner>.*>?)` capture of the CONNECT pattern: prefer to
extend the owner (never across a newline), otherwise end it at a comma
whose continuation succeeds. -/
def connOwner (acc : List Char) : List Char → Option (ConnGroups × List Char)
  | [] => none
  | c :: t =>
    (if c = '\n' then none else connOwner (acc ++ [c]) t).orElse
    (fun _ =>
      if c = ',' then
        match connAfterOwner (skipWs t) with
        | some (sig, ar, sl, rest) => some (⟨String.mk acc, sig, ar, sl⟩, rest)
        | none => none
      else none)

/-- Try to match the CONNECT pattern of `process_connect` at the start
of `s`; on success return the captures and the text after the match. -/
def connTryMatch (s : List Char) : Option (ConnGroups × List Char) :=
  match dropLit "connect(".data (dropOpt "self.".data s) with
  | none => none
  | some t => connOwner [] (skipWs t)

/-- Tail of the EMIT pattern after `\)['\"]` closed the signal
descriptor: `(?:\s+)?\)(?:\s+)?(?:,(?:\s+)?)?(?P<args>.*?)\)`.  The
optional comma group is deterministic: when a comma is present, skipping
it instead can never turn failure into success. -/
def emitArgs (acc : List Char) : List Char → Option (String × List Char)
  | [] => none
  | c :: t =>
    if c = ')' then some (String.mk acc, t)
    else if c = '\n' then none
    else emitArgs (acc ++ [c]) t

/-- Continuation of the EMIT pattern after the quote closing the signal
descriptor. -/
def emitAfterSig (t : List Char) : Option (String × List Char) :=
  match skipWs t with
  | ')' :: t2 =>
    match skipWs t2 with
    | ',' :: t3 => emitArgs [] (skipWs t3)
    | t4 => emitArgs [] t4
  | _ => none

/-- Lazy `(?P<arg_types>.*?)` capture of the EMIT pattern: stop at the
leftmost `)` followed by a quote whose continuation succeeds. -/
def emitArgTypes (acc : List Char) : List Char → Option (String × String × List Char)
  | [] => none
  | c :: t =>
    (match c, t with
     | ')', q :: t2 =>
       if isQuote q then
         match emitAfterSig t2 with
         | some (a, rest) => some (String.mk acc, a, rest)
         | none => none
       else none
     | _, _ => none).orElse
    (fun _ => if c = '\n' then none else emitArgTypes (acc ++ [c]) t)

/-- EMIT pattern from `emit\(` on, with an already decided owner
capture. -/
def emitAfterOwner (ow : Option String) (t : List Char) :
    Option (EmitGroups × List Char) :=
  match dropLit "emit(".data t with
  | none => none
  | some t2 =>
    match dropLit "SIGNAL(".data (dropOpt "QtCore.".data (skipWs t2)) with
    | none => none
    | some t3 =>
      match skipWs t3 with
      | q :: t4 =>
        if isQuote q then
          match takeWord t4 with
          | some (sig, t5) =>
            match t5 with
            | '(' :: t6 =>
              match emitArgTypes [] t6 with
              | some (tys, a, rest) => some (⟨ow, sig, tys, a⟩, rest)
              | none => none
            | _ => none
          | none => none
        else none
      | [] => none

/-- Try to match the EMIT pattern of `process_emit` at the start of `s`.
The optional `(?:(?P<owner>\w+)\.)?` prefix is tried with the owner
present first, as the engine does. -/
def emitTryMatch (s : List Char) : Option (EmitGroups × List Char) :=
  (match takeWord s with
   | some (ow, t) =>
     match t with
     | '.' :: t2 => emitAfterOwner (some ow) t2
     | _ => none
   | none => none).orElse
  (fun _ => emitAfterOwner none s)

/-- Embedding of `re.sub`: scan left to right, replace every
non-overlapping match, resume right after each replacement.  Both
patterns consume at least the literal `connect(`/`emit(`, so fuel equal
to the initial length is never exhausted. -/
def subAllAux {γ : Type} (tryM : List Char → Option (γ × List Char))
    (repl : γ → List Char) : Nat → List Char → List Char
  | 0, s => s
  | _ + 1, [] => []
  | f + 1, c :: rest =>
    match tryM (c :: rest) with
    | some (g, rem) => repl g ++ subAllAux tryM repl f rem
    | none => c :: subAllAux tryM repl f rest

/-- One Python string item, split off by the Argument Splitter. -/
def splitFlush (cur : List Char) : String :=
  (String.mk cur).trim

/-- Modelled from the spec: worker of the Argument Splitter of §4.2 (the
source file `_c_args.py` holding `parse_args` is not under `src/`).  A
comma splits only at bracket depth zero outside quotes; both quote kinds
are tracked and a backslash escapes the next character; items are
trimmed. -/
def splitTopAux : List Char → Nat → Option Char → Bool → List Char →
    List String → List String
  | [], _, _, _, cur, acc => acc ++ [splitFlush cur]
  | c :: rest, depth, q, esc, cur, acc =>
    if esc then splitTopAux rest depth q false (cur ++ [c]) acc
    else if c = '\\' then splitTopAux rest depth q true (cur ++ [c]) acc
    else
      match q with
      | some qc =>
        if c = qc then splitTopAux rest depth none false (cur ++ [c]) acc
        else splitTopAux rest depth q false (cur ++ [c]) acc
      | none =>
        if isQuote c then splitTopAux rest depth (some c) false (cur ++ [c]) acc
        else if c = '(' || c = '[' || c = '\x7b' then
          splitTopAux rest (depth + 1) q false (cur ++ [c]) acc
        else if c = ')' || c = ']' || c = '\x7d' then
          splitTopAux rest (depth - 1) q false (cur ++ [c]) acc
        else if c = ',' && depth = 0 then
          splitTopAux rest depth q false [] (acc ++ [splitFlush cur])
        else splitTopAux rest depth q false (cur ++ [c]) acc

/-- Modelled from the spec: `parse_args`, the Argument Splitter of §4.2
(`_c_args.py` is not under `src/`): split a comma-separated blob into
trimmed top-level items, aware of nested groups and of quoted text;
empty input yields the empty sequence. -/
def parse_args (s : String) : List String :=
  if s.data.isEmpty then [] else splitTopAux s.data 0 none false [] []

/-- Replacement renderer of `_connect_repl`: the template
`{owner}.{signal}.connect({slot})` applied to the capture groups.  The
source also feeds the `args` capture through `parse_args` and stores the
result back into the group dictionary, but the template never mentions
`args`, so the rendered text is independent of it. -/
def _connect_repl (g : ConnGroups) : String :=
  let _parsed := parse_args g.args
  g.owner ++ "." ++ g.signal ++ ".connect(" ++ g.slot ++ ")"

/-- Python `str.format` of a group value that may be an unmatched group:
`None` is rendered as the literal text `None`. -/
def pyFormatOpt : Option String → String
  | none => "None"
  | some s => s

/-- Replacement renderer of `_emit_repl`: the template
`{owner}.{signal}.emit({args})` applied to the capture groups; the
`args` capture is copied verbatim (the `parse_args` call is commented
out in the source). -/
def _emit_repl (g : EmitGroups) : String :=
  pyFormatOpt g.owner ++ "." ++ g.signal ++ ".emit(" ++ g.args ++ ")"

/-- Embedding of `process_connect`: substitute every match of the
CONNECT pattern, then return the original string when nothing changed.
The function reads and writes no registry state. -/
def process_connect (function_str : String) : String :=
  let replacement_str := String.mk
    (subAllAux connTryMatch (fun g => (_connect_repl g).data)
      function_str.data.length function_str.data)
  if replacement_str ≠ function_str then replacement_str else function_str

/-- Embedding of `process_emit`: substitute every match of the EMIT
pattern, then return the original string when nothing changed.  The
function reads and writes no registry state. -/
def process_emit (function_str : String) : String :=
  let replacement_str := String.mk
    (subAllAux emitTryMatch (fun g => (_emit_repl g).data)
      function_str.data.length function_str.data)
  if replacement_str ≠ function_str then replacement_str else function_str

/-- Python value universe for `merge_dict` of `general.py`: the merge
distinguishes sets, strings, and everything else (modelled by an
integer-valued constructor, the representative "other type"). -/
inductive PyValue where
  | vset (s : Finset String)
  | vstr (s : String)
  | vint (n : Int)
deriving DecidableEq

/-- Python `dict` lookup on an association list with unique keys. -/
def dictGet (k : String) : List (String × PyValue) → Option PyValue
  | [] => none
  | (k2, v) :: rest => if k2 = k then some v else dictGet k rest

/-- Python `dict` assignment: overwrite in place, else append. -/
def dictSet (k : String) (v : PyValue) :
    List (String × PyValue) → List (String × PyValue)
  | [] => [(k, v)]
  | (k2, v2) :: rest =>
    if k2 = k then (k, v) :: rest else (k2, v2) :: dictSet k v rest

/-- Python `type(x)()`: the zero value of the value's type (`set()`,
`str()`, `int()`). -/
def pyTypeZero : PyValue → PyValue
  | .vset _ => .vset ∅
  | .vstr _ => .vstr ""
  | .vint _ => .vint 0

/-- Python `set.union`: accepts any iterable; iterating a string yields
its characters as one-character strings; an integer is not iterable
(`TypeError`, modelled as `none`). -/
def pySetUnion (a : Finset String) : PyValue → Option (Finset String)
  | .vset b => some (a ∪ b)
  | .vstr s => some (a ∪ s.data.toFinset.image (fun c => String.mk [c]))
  | .vint _ => none

/-- Python `str.__add__`: defined only on another string (`TypeError`
otherwise, modelled as `none`). -/
def pyStrAdd (a : String) : PyValue → Option String
  | .vstr b => some (a ++ b)
  | _ => none

/-- Key-by-key worker of `merge_dict`.  For each key: a side missing the
key is filled with the zero value of the other side's type (a key
missing from both raises `KeyError`, modelled as `none`); a set-valued
left side merges by `union`, a text-valued left side by `__add__`, and
any other left type selects no operation, so no entry is written to the
output. -/
def mergeKeys (lhs rhs : List (String × PyValue)) :
    List String → List (String × PyValue) → Option (List (String × PyValue))
  | [], out => some out
  | k :: ks, out =>
    let step : PyValue → PyValue → Option (Option PyValue) := fun lv rv =>
      match lv with
      | .vset a => (pySetUnion a rv).map (fun u => some (PyValue.vset u))
      | .vstr a => (pyStrAdd a rv).map (fun u => some (PyValue.vstr u))
      | .vint _ => some none
    let res : Option (Option PyValue) :=
      match dictGet k lhs, dictGet k rhs with
      | none, none => none
      | some lv, none => step lv (pyTypeZero lv)
      | none, some rv => step (pyTypeZero rv) rv
      | some lv, some rv => step lv rv
    match res with
    | none => none
    | some none => mergeKeys lhs rhs ks out
    | some (some v) => mergeKeys lhs rhs ks (dictSet k v out)

/-- Embedding of `merge_dict` of `general.py`.  `keys=None` (and the
falsy empty list) defaults to the keys of `lhs`, extended by the keys of
`rhs` when `keys_both` is set; a raised `KeyError`/`TypeError` is
modelled as `none`. -/
def merge_dict (lhs rhs : List (String × PyValue)) (keys : Option (List String))
    (keys_both : Bool) : Option (List (String × PyValue)) :=
  let ks : List String :=
    match keys with
    | some (k :: ks2) => k :: ks2
    | _ => lhs.map Prod.fst ++ (if keys_both then rhs.map Prod.fst else [])
  mergeKeys lhs rhs ks []

/-- Line of a redbaron bounding-box corner. -/
structure BBoxPoint where
  line : Int
deriving DecidableEq

/-- Redbaron `absolute_bounding_box`: start and end corners. -/
structure BBox where
  top_left : BBoxPoint
  bottom_right : BBoxPoint
deriving DecidableEq

/-- The part of a redbaron node consumed by `ErrorClass.__init__`. -/
structure RedbaronNode where
  absolute_bounding_box : BBox
deriving DecidableEq

/-- Structured record of `ErrorClass`: a problem that cannot be fixed
automatically. -/
structure ErrorClass where
  row : Int
  row_to : Int
  reason : String
deriving DecidableEq

/-- The global state store `AliasDictClass` of `general.py`: five named
sets.  The first four hold strings; `errors` holds `ErrorClass` objects,
which Python deduplicates by object identity, so a run of insertions of
freshly constructed records is modelled as a list. -/
structure AliasDictClass where
  bindings : Finset String
  root_aliases : Finset String
  used : Finset String
  warnings : Finset String
  errors : List ErrorClass
deriving DecidableEq

/-- Embedding of `AliasDictClass.clean`: reassign all five sets to
freshly created empty sets, regardless of the previous contents. -/
def AliasDictClass.clean (_d : AliasDictClass) : AliasDictClass :=
  { bindings := ∅, root_aliases := ∅, used := ∅, warnings := ∅, errors := [] }

/-- Python `AliasDict["bindings"].add(x)`. -/
def AliasDictClass.add_binding (d : AliasDictClass) (x : String) : AliasDictClass :=
  { d with bindings := insert x d.bindings }

/-- Python `AliasDict["root_aliases"].add(x)`. -/
def AliasDictClass.add_root_alias (d : AliasDictClass) (x : String) : AliasDictClass :=
  { d with root_aliases := insert x d.root_aliases }

/-- Python `AliasDict["used"].add(x)`. -/
def AliasDictClass.add_used (d : AliasDictClass) (x : String) : AliasDictClass :=
  { d with used := insert x d.used }

/-- Python `AliasDict["warnings"].add(x)`. -/
def AliasDictClass.add_warning (d : AliasDictClass) (x : String) : AliasDictClass :=
  { d with warnings := insert x d.warnings }

/-- Python `AliasDict["errors"].add(e)` for a freshly constructed
record: object-identity membership always inserts it. -/
def AliasDictClass.add_error (d : AliasDictClass) (e : ErrorClass) : AliasDictClass :=
  { d with errors := d.errors ++ [e] }

/-- Embedding of `ErrorClass.__init__`: derive `row`/`row_to` from the
node's bounding box (both lines shifted by the same offset `-1`), file
the record into the global `errors` set, and hand the record back.  The
construction is a total function: it never raises. -/
def ErrorClass.init (aliasDict : AliasDictClass) (node : RedbaronNode)
    (reason : String) : AliasDictClass × ErrorClass :=
  let e : ErrorClass :=
    { row := node.absolute_bounding_box.top_left.line - 1,
      row_to := node.absolute_bounding_box.bottom_right.line - 1,
      reason := reason }
  (aliasDict.add_error e, e)

/-- A match of the given pattern exists at some position of the text:
the positions `re.sub` would rewrite. -/
def anyMatch {γ : Type} (tryM : List Char → Option (γ × List Char)) :
    List Char → Bool
  | [] => false
  | c :: rest => (tryM (c :: rest)).isSome || anyMatch tryM rest

/-- The pattern is a prefix of the text. -/
def startsList : List Char → List Char → Bool
  | [], _ => true
  | _ :: _, [] => false
  | p :: ps, c :: cs => c = p && startsList ps cs

/-- The pattern occurs contiguously somewhere in the text. -/
def subList (pat : List Char) : List Char → Bool
  | [] => startsList pat []
  | c :: rest => startsList pat (c :: rest) || subList pat rest

theorem strMkData (s : String) : String.mk s.data = s := by
  cases s with
  | mk l => rfl

theorem strAppendEmpty (s : String) : s ++ "" = s := by
  cases s with
  | mk l => show String.mk (l ++ []) = String.mk l
            rw [List.append_nil]

theorem option_orElse_some {α : Type} (x : Option α) (f : Unit → Option α)
    (v : α) (h : x.orElse f = some v) :
    x = some v ∨ (x = none ∧ f () = some v) := by
  cases x with
  | none => exact Or.inr ⟨rfl, h⟩
  | some w => exact Or.inl (by simpa [Option.orElse] using h)

theorem subAllAux_id {γ : Type} (tryM : List Char → Option (γ × List Char))
    (repl : γ → List Char) :
    ∀ (f : Nat) (s : List Char), anyMatch tryM s = false →
      subAllAux tryM repl f s = s := by
  intro f
  induction f with
  | zero => intro s _; rfl
  | succ f ih =>
    intro s h
    cases s with
    | nil => rfl
    | cons c rest =>
      cases hm : tryM (c :: rest) with
      | some v =>
        exfalso
        have hs : (tryM (c :: rest)).isSome = true := by rw [hm]; rfl
        simp [anyMatch, hs] at h
      | none =>
        have h2 : anyMatch tryM rest = false := by
          simpa [anyMatch, hm] using h
        simp [subAllAux, hm, ih rest h2]

theorem startsList_self_append (p s : List Char) :
    startsList p (p ++ s) = true := by
  induction p with
  | nil => rfl
  | cons c cs ih => simp [startsList, ih]

theorem subList_cons (p : List Char) (c : Char) (s : List Char)
    (h : subList p s = true) : subList p (c :: s) = true := by
  simp [subList, h]

theorem subList_append_left (p pre s : List Char) (h : subList p s = true) :
    subList p (pre ++ s) = true := by
  induction pre with
  | nil => simpa using h
  | cons c cs ih => simpa [List.cons_append] using subList_cons _ c _ ih

theorem subList_self_append (p s : List Char) : subList p (p ++ s) = true := by
  cases p with
  | nil => cases s <;> simp [subList, startsList]
  | cons c cs =>
    have h := startsList_self_append (c :: cs) s
    simp only [List.cons_append] at h ⊢
    simp [subList, h]

theorem subList_lift (p u t pre : List Char) (ht : t = pre ++ u)
    (h : subList p u = true) : subList p t = true :=
  ht ▸ subList_append_left p pre u h

theorem dropLit_decomp (pat : List Char) :
    ∀ (t r : List Char), dropLit pat t = some r → t = pat ++ r := by
  induction pat with
  | nil =>
    intro t r h
    simpa [dropLit] using (Option.some_inj.mp h).symm ▸ rfl
  | cons p ps ih =>
    intro t r h
    cases t with
    | nil => simp [dropLit] at h
    | cons c t2 =>
      simp only [dropLit] at h
      split at h
      · rename_i hc
        subst hc
        rw [List.cons_append]
        exact congrArg (c :: ·) (ih t2 r h)
      · exact absurd h (by simp)

theorem skipWs_decomp (t : List Char) : ∃ pre, t = pre ++ skipWs t :=
  ⟨t.takeWhile isPySpace, (List.takeWhile_append_dropWhile isPySpace t).symm⟩

theorem dropOpt_decomp (pat t : List Char) : ∃ pre, t = pre ++ dropOpt pat t := by
  unfold dropOpt
  cases h : dropLit pat t with
  | none => exact ⟨[], rfl⟩
  | some r => exact ⟨pat, dropLit_decomp pat t r h⟩

theorem takeWord_decomp (t : List Char) (w : String) (r : List Char)
    (h : takeWord t = some (w, r)) : t = w.data ++ r := by
  unfold takeWord at h
  cases hw : t.takeWhile isWordChar with
  | nil => rw [hw] at h; exact absurd h (by simp)
  | cons c cs =>
    rw [hw] at h
    have hwd : w = String.mk (c :: cs) ∧ r = t.dropWhile isWordChar := by
      have := Option.some_inj.mp h
      exact ⟨congrArg Prod.fst this.symm, congrArg Prod.snd this.symm⟩
    rw [hwd.1, hwd.2, show (String.mk (c :: cs)).data = c :: cs from rfl, ← hw]
    exact (List.takeWhile_append_dropWhile isWordChar t).symm

theorem emitArgs_decomp :
    ∀ (t acc : List Char) (a : String) (r : List Char),
      emitArgs acc t = some (a, r) →
      ∃ mid, a.data = acc ++ mid ∧ t = mid ++ ')' :: r := by
  intro t
  induction t with
  | nil => intro acc a r h; simp [emitArgs] at h
  | cons c t2 ih =>
    intro acc a r h
    simp only [emitArgs] at h
    split at h
    · rename_i hc
      injection h with hp
      injection hp with hp1 hp2
      refine ⟨[], ?_, ?_⟩
      · rw [← hp1]; simp
      · rw [List.nil_append, hc, hp2]
    · split at h
      · exact absurd h (by simp)
      · obtain ⟨mid2, hmid1, hmid2⟩ := ih (acc ++ [c]) a r h
        refine ⟨c :: mid2, ?_, ?_⟩
        · rw [hmid1]; simp
        · rw [hmid2]; simp

theorem emitArgs_sub (u : List Char) (a : String) (r : List Char)
    (h : emitArgs [] u = some (a, r)) : subList a.data u = true := by
  obtain ⟨mid, hm1, hm2⟩ := emitArgs_decomp u [] a r h
  rw [List.nil_append] at hm1
  rw [hm1, hm2]
  exact subList_self_append _ _

theorem emitAfterSig_sub (t : List Char) (a : String) (r : List Char)
    (h : emitAfterSig t = some (a, r)) : subList a.data t = true := by
  unfold emitAfterSig at h
  split at h
  next t2 heq =>
    have h4 : subList a.data (skipWs t2) = true := by
      split at h
      next t3 heq2 =>
        obtain ⟨pre3, hpre3⟩ := skipWs_decomp t3
        have h3 : subList a.data t3 = true :=
          subList_lift _ _ _ pre3 hpre3 (emitArgs_sub _ a r h)
        rw [heq2]
        exact subList_cons _ _ _ h3
      next t4 heq2 => exact emitArgs_sub _ a r h
    obtain ⟨pre2, hpre2⟩ := skipWs_decomp t2
    have h5 : subList a.data (skipWs t) = true := by
      rw [heq]
      exact subList_cons _ _ _ (subList_lift _ _ _ pre2 hpre2 h4)
    obtain ⟨pre1, hpre1⟩ := skipWs_decomp t
    exact subList_lift _ _ _ pre1 hpre1 h5
  next => simp at h

theorem emitArgTypes_sub :
    ∀ (t acc : List Char) (tys a : String) (r : List Char),
      emitArgTypes acc t = some (tys, a, r) → subList a.data t = true := by
  intro t
  induction t with
  | nil => intro acc tys a r h; simp [emitArgTypes] at h
  | cons c t2 ih =>
    intro acc tys a r h
    simp only [emitArgTypes] at h
    rcases option_orElse_some _ _ _ h with hx | ⟨-, hx⟩
    · split at hx
      next q t3 =>
        split at hx
        · split at hx
          next a2 rest heq3 =>
            injection hx with hp
            injection hp with hp1 hp2
            injection hp2 with hp3 hp4
            rw [← hp3]
            exact subList_cons _ _ _ (subList_cons _ _ _
              (emitAfterSig_sub t3 a2 rest heq3))
          next => exact absurd hx (by simp)
        · exact absurd hx (by simp)
      next => exact absurd hx (by simp)
    · split at hx
      · exact absurd hx (by simp)
      · exact subList_cons _ _ _ (ih (acc ++ [c]) tys a r hx)

theorem emitAfterOwner_sub (ow : Option String) (t : List Char)
    (g : EmitGroups) (r : List Char) (h : emitAfterOwner ow t = some (g, r)) :
    subList g.args.data t = true := by
  unfold emitAfterOwner at h
  split at h
  next => simp at h
  next t2 h1 =>
    split at h
    next => simp at h
    next t3 h2 =>
      split at h
      next q t4 h3 =>
        split at h
        next hq =>
          split at h
          next sig t5 h4 =>
            split at h
            next t6 =>
              split at h
              next tys a rest h6 =>
                injection h with hp
                injection hp with hp1 hp2
                have hargs : g.args = a := by rw [← hp1]
                have s6 : subList a.data t6 = true :=
                  emitArgTypes_sub t6 [] tys a rest h6
                have s4 : subList a.data t4 = true :=
                  subList_lift _ _ _ sig.data
                    (takeWord_decomp t4 sig ('(' :: t6) h4)
                    (subList_cons _ _ _ s6)
                have s3 : subList a.data t3 = true := by
                  obtain ⟨pre3, hpre3⟩ := skipWs_decomp t3
                  refine subList_lift _ _ _ pre3 hpre3 ?_
                  rw [h3]; exact subList_cons _ _ _ s4
                have s2 : subList a.data t2 = true := by
                  obtain ⟨preQ, hpreQ⟩ :=
                    dropOpt_decomp "QtCore.".data (skipWs t2)
                  obtain ⟨pre2, hpre2⟩ := skipWs_decomp t2
                  refine subList_lift _ _ _ pre2 hpre2 ?_
                  refine subList_lift _ _ _ preQ hpreQ ?_
                  exact subList_lift _ _ _ "SIGNAL(".data
                    (dropLit_decomp _ _ _ h2) s3
                rw [hargs]
                exact subList_lift _ _ _ "emit(".data
                  (dropLit_decomp _ _ _ h1) s2
              next => simp at h
            next => simp at h
          next => simp at h
        next => simp at h
      next => simp at h

/-- C4: for every matched EMIT occurrence, the trailing argument text
captured by the matcher occurs character-for-character in the scanned
text, and the rewritten output places exactly that capture between the
parentheses of `owner.signal.emit(...)` — the capture is not split,
parsed, or reformatted (`_emit_repl` leaves the `parse_args` call
commented out). -/
theorem emit_args_verbatim (s : List Char) (g : EmitGroups) (r : List Char)
    (h : emitTryMatch s = some (g, r)) :
    subList g.args.data s = true ∧
    _emit_repl g = pyFormatOpt g.owner ++ "." ++ g.signal ++ ".emit(" ++
      g.args ++ ")" := by
  refine ⟨?_, rfl⟩
  unfold emitTryMatch at h
  rcases option_orElse_some _ _ _ h with hx | ⟨-, hx⟩
  · split at hx
    next ow t hw =>
      split at hx
      next t2 =>
        exact subList_lift _ _ _ ow.data (takeWord_decomp s ow ('.' :: t2) hw)
          (subList_cons _ _ _ (emitAfterOwner_sub (some ow) t2 g r hx))
      next => simp at hx
    next => simp at hx
  · exact emitAfterOwner_sub none s g r hx

/-- C4 witness: the theorem applied to the concrete fragment
`obj.emit(QtCore.SIGNAL("v(int)"), 5)`, whose match captures `args`
as `5`. -/
theorem emit_args_verbatim_witness :
    subList (String.data "5")
      (String.data "obj.emit(QtCore.SIGNAL(\"v(int)\"), 5)") = true ∧
    _emit_repl ⟨some "obj", "v", "int", "5"⟩ =
      pyFormatOpt (some "obj") ++ "." ++ "v" ++ ".emit(" ++ "5" ++ ")" :=
  emit_args_verbatim (String.data "obj.emit(QtCore.SIGNAL(\"v(int)\"), 5)")
    ⟨some "obj", "v", "int", "5"⟩ [] (by decide)

/-- C1: for the input fragment
`self.connect(obj, QtCore.SIGNAL("valueChanged(int)"), self.onValueChanged)`,
`process_connect` returns exactly
`obj.valueChanged.connect(self.onValueChanged)`. -/
theorem connect_round_trip :
    process_connect
      "self.connect(obj, QtCore.SIGNAL(\"valueChanged(int)\"), self.onValueChanged)" =
      "obj.valueChanged.connect(self.onValueChanged)" := by decide

/-- C2: for the input fragment `obj.emit(QtCore.SIGNAL("valueChanged(int)"), 5)`,
`process_emit` returns exactly `obj.valueChanged.emit(5)`. -/
theorem emit_round_trip :
    process_emit "obj.emit(QtCore.SIGNAL(\"valueChanged(int)\"), 5)" =
      "obj.valueChanged.emit(5)" := by decide

/-- C3: when neither pattern matches anywhere in the fragment,
`process_connect` and `process_emit` both return the input unchanged,
byte for byte.  The embedded functions are pure string transformers, as
their source bodies touch no registry state, so no state is recorded. -/
theorem no_match_identity (s : String)
    (hc : anyMatch connTryMatch s.data = false)
    (he : anyMatch emitTryMatch s.data = false) :
    process_connect s = s ∧ process_emit s = s := by
  constructor
  · show (if String.mk (subAllAux connTryMatch
        (fun g => (_connect_repl g).data) s.data.length s.data) ≠ s
      then String.mk (subAllAux connTryMatch
        (fun g => (_connect_repl g).data) s.data.length s.data) else s) = s
    rw [subAllAux_id _ _ _ _ hc, strMkData]
    simp
  · show (if String.mk (subAllAux emitTryMatch
        (fun g => (_emit_repl g).data) s.data.length s.data) ≠ s
      then String.mk (subAllAux emitTryMatch
        (fun g => (_emit_repl g).data) s.data.length s.data) else s) = s
    rw [subAllAux_id _ _ _ _ he, strMkData]
    simp

/-- C3 witness: the fragment `x = 1` contains no CONNECT or EMIT shape
and is returned unchanged by both passes. -/
theorem no_match_identity_witness :
    (anyMatch connTryMatch ("x = 1").data = false ∧
     anyMatch emitTryMatch ("x = 1").data = false) ∧
    (process_connect "x = 1" = "x = 1" ∧ process_emit "x = 1" = "x = 1") :=
  ⟨⟨by decide, by decide⟩, no_match_identity "x = 1" (by decide) (by decide)⟩

/-- C10: when the EMIT occurrence has no `OWNER.` prefix, the `owner`
group does not participate in the match (it is `None` in the group
dictionary) and `str.format` renders it as the literal text `None`, so
the rewritten span begins with `None.`. -/
theorem emit_unmatched_owner_rendered_none :
    emitTryMatch ("emit(QtCore.SIGNAL(\"valueChanged(int)\"), 5)").data =
      some (⟨none, "valueChanged", "int", "5"⟩, []) ∧
    _emit_repl ⟨none, "valueChanged", "int", "5"⟩ =
      "None.valueChanged.emit(5)" ∧
    process_emit "emit(QtCore.SIGNAL(\"valueChanged(int)\"), 5)" =
      "None.valueChanged.emit(5)" := by decide

/-- C5 counterexample: two fragments that differ only in the text at the
argument-type position of the `SIGNAL("s(...)")` descriptor — `int`
versus `x)"), c` — are rewritten with different spans: the second
argument-type text ends the descriptor early, shifting the match so the
slot capture becomes `c`, and the rewritten span `a.s.connect(c)`
differs from `a.s.connect(b)`.  The signature text therefore does leak
into how the span is formed, refuting the two-run formulation. -/
theorem connect_two_run_counterexample :
    process_connect ("connect(a, SIGNAL(\"s(" ++ "int" ++ ")\"), b)") =
      "a.s.connect(b)" ∧
    process_connect ("connect(a, SIGNAL(\"s(" ++ "x)\"), c" ++ ")\"), b)") =
      "a.s.connect(c)\"), b)" ∧
    (connTryMatch ("connect(a, SIGNAL(\"s(" ++ "int" ++ ")\"), b)").data).map
        (fun m => _connect_repl m.1) = some "a.s.connect(b)" ∧
    (connTryMatch ("connect(a, SIGNAL(\"s(" ++ "x)\"), c" ++ ")\"), b)").data).map
        (fun m => _connect_repl m.1) = some "a.s.connect(c)" ∧
    ("a.s.connect(b)" : String) ≠ "a.s.connect(c)" := by decide

/-- C5 amended: the rewrite of a CONNECT occurrence discards the
signature text at the level of each match — the replacement span is
built from the owner, signal and slot captures only, so two matches
agreeing on those three captures produce identical spans whatever their
`args` (signature) captures are.  The two-run whole-fragment form fails
when the signature text itself contains `)` followed by a quote, which
moves the match boundaries (see the counterexample). -/
theorem connect_repl_discards_signature (g1 g2 : ConnGroups)
    (ho : g1.owner = g2.owner) (hs : g1.signal = g2.signal)
    (hl : g1.slot = g2.slot) : _connect_repl g1 = _connect_repl g2 := by
  cases g1
  cases g2
  simp only at ho hs hl
  simp [_connect_repl, ho, hs, hl]

/-- C5 witness: two capture-group records differing only in the
signature capture render identical replacement spans. -/
theorem connect_repl_discards_signature_witness :
    (ConnGroups.mk "obj" "valueChanged" "int" "slot").owner =
      (ConnGroups.mk "obj" "valueChanged" "QString, int" "slot").owner ∧
    _connect_repl ⟨"obj", "valueChanged", "int", "slot"⟩ =
      _connect_repl ⟨"obj", "valueChanged", "QString, int", "slot"⟩ :=
  ⟨rfl, connect_repl_discards_signature _ _ rfl rfl rfl⟩

/-- C6: `merge_dict` combines set-valued keys by union and text-valued
keys by concatenation; a key absent from one side is filled with the
zero value of the other side's type, so the merged value is the present
side's value unmodified; in particular `{bindings: {"PySide"}}` merged
with `{bindings: {"PyQt5"}}` over `keys=["bindings"]` yields
`{bindings: {"PySide", "PyQt5"}}`. -/
theorem merge_dict_registry :
    merge_dict [("bindings", .vset {"PySide"})] [("bindings", .vset {"PyQt5"})]
        (some ["bindings"]) false =
      some [("bindings", .vset ({"PySide", "PyQt5"} : Finset String))] ∧
    (∀ (k : String) (a : Finset String),
      merge_dict [(k, .vset a)] [] (some [k]) false = some [(k, .vset a)]) ∧
    (∀ (k s : String),
      merge_dict [(k, .vstr s)] [] (some [k]) false = some [(k, .vstr s)]) ∧
    (∀ (k : String) (a : Finset String),
      merge_dict [] [(k, .vset a)] (some [k]) false = some [(k, .vset a)]) ∧
    (∀ (k s : String),
      merge_dict [] [(k, .vstr s)] (some [k]) false = some [(k, .vstr s)]) ∧
    (∀ (k : String) (a b : Finset String),
      merge_dict [(k, .vset a)] [(k, .vset b)] (some [k]) false =
        some [(k, .vset (a ∪ b))]) ∧
    (∀ (k s t : String),
      merge_dict [(k, .vstr s)] [(k, .vstr t)] (some [k]) false =
        some [(k, .vstr (s ++ t))]) := by
  refine ⟨by decide, ?_, ?_, ?_, ?_, ?_, ?_⟩
  · intro k a
    simp [merge_dict, mergeKeys, dictGet, dictSet, pyTypeZero, pySetUnion]
  · intro k s
    simp [merge_dict, mergeKeys, dictGet, dictSet, pyTypeZero, pyStrAdd,
      strAppendEmpty]
  · intro k a
    simp [merge_dict, mergeKeys, dictGet, dictSet, pyTypeZero, pySetUnion]
  · intro k s
    simp [merge_dict, mergeKeys, dictGet, dictSet, pyTypeZero, pyStrAdd]
  · intro k a b
    simp [merge_dict, mergeKeys, dictGet, dictSet, pySetUnion]
  · intro k s t
    simp [merge_dict, mergeKeys, dictGet, dictSet, pyStrAdd]

/-- C7 counterexample: a selected key whose `lhs` value is an integer is
not passed through — `merge_dict` returns a dictionary with no entry for
it at all, because no merge operation is selected and the output
assignment is skipped. -/
theorem merge_other_key_not_passed_through :
    merge_dict [("n", .vint 3)] [] (some ["n"]) false = some [] ∧
    dictGet "n" [] = none := by decide

/-- C7 amended: for every selected key whose `lhs` value is neither a
set nor text, `merge_dict` omits the key from the output entirely (the
merged dictionary is empty for a single such key), whatever the right
side holds. -/
theorem merge_other_keys_omitted (k : String) (n : Int)
    (rhs : List (String × PyValue)) :
    merge_dict [(k, .vint n)] rhs (some [k]) false = some [] := by
  cases hr : dictGet k rhs <;>
    simp [merge_dict, mergeKeys, dictGet, hr]

/-- C8: after `clean`, all five named sets are empty regardless of prior
contents, and each of the five `add` operations leaves the other four
sets unchanged. -/
theorem clean_and_add_frame :
    (∀ d : AliasDictClass, d.clean.bindings = ∅ ∧ d.clean.root_aliases = ∅ ∧
      d.clean.used = ∅ ∧ d.clean.warnings = ∅ ∧ d.clean.errors = []) ∧
    (∀ (d : AliasDictClass) (x : String),
      (d.add_binding x).root_aliases = d.root_aliases ∧
      (d.add_binding x).used = d.used ∧
      (d.add_binding x).warnings = d.warnings ∧
      (d.add_binding x).errors = d.errors) ∧
    (∀ (d : AliasDictClass) (x : String),
      (d.add_root_alias x).bindings = d.bindings ∧
      (d.add_root_alias x).used = d.used ∧
      (d.add_root_alias x).warnings = d.warnings ∧
      (d.add_root_alias x).errors = d.errors) ∧
    (∀ (d : AliasDictClass) (x : String),
      (d.add_used x).bindings = d.bindings ∧
      (d.add_used x).root_aliases = d.root_aliases ∧
      (d.add_used x).warnings = d.warnings ∧
      (d.add_used x).errors = d.errors) ∧
    (∀ (d : AliasDictClass) (x : String),
      (d.add_warning x).bindings = d.bindings ∧
      (d.add_warning x).root_aliases = d.root_aliases ∧
      (d.add_warning x).used = d.used ∧
      (d.add_warning x).errors = d.errors) ∧
    (∀ (d : AliasDictClass) (e : ErrorClass),
      (d.add_error e).bindings = d.bindings ∧
      (d.add_error e).root_aliases = d.root_aliases ∧
      (d.add_error e).used = d.used ∧
      (d.add_error e).warnings = d.warnings) :=
  ⟨fun _ => ⟨rfl, rfl, rfl, rfl, rfl⟩,
   fun _ _ => ⟨rfl, rfl, rfl, rfl⟩, fun _ _ => ⟨rfl, rfl, rfl, rfl⟩,
   fun _ _ => ⟨rfl, rfl, rfl, rfl⟩, fun _ _ => ⟨rfl, rfl, rfl, rfl⟩,
   fun _ _ => ⟨rfl, rfl, rfl, rfl⟩⟩

/-- C9: constructing an `ErrorClass` from a node and a reason derives
`row` and `row_to` from the bounding box's start and end lines, shifted
by the same offset `-1` (so `row ≤ row_to` whenever the start line is at
most the end line), stores the reason, unconditionally files the record
into the registry's `errors` set, and returns it; the embedded
constructor is a total function — it never raises. -/
theorem errorclass_init_spec (d : AliasDictClass) (node : RedbaronNode)
    (reason : String) :
    (ErrorClass.init d node reason).2.row =
      node.absolute_bounding_box.top_left.line - 1 ∧
    (ErrorClass.init d node reason).2.row_to =
      node.absolute_bounding_box.bottom_right.line - 1 ∧
    (ErrorClass.init d node reason).2.reason = reason ∧
    (node.absolute_bounding_box.top_left.line ≤
        node.absolute_bounding_box.bottom_right.line →
      (ErrorClass.init d node reason).2.row ≤
        (ErrorClass.init d node reason).2.row_to) ∧
    (ErrorClass.init d node reason).2 ∈ (ErrorClass.init d node reason).1.errors ∧
    (ErrorClass.init d node reason).1 =
      d.add_error (ErrorClass.init d node reason).2 := by
  refine ⟨rfl, rfl, rfl, fun h => ?_, ?_, rfl⟩
  · show node.absolute_bounding_box.top_left.line - 1 ≤
      node.absolute_bounding_box.bottom_right.line - 1
    omega
  · show (ErrorClass.init d node reason).2 ∈
      d.errors ++ [(ErrorClass.init d node reason).2]
    exact List.mem_append_right _ (List.mem_singleton_self _)

/-- C9 witness: the theorem applied to a concrete node spanning lines 3
to 5. -/
theorem errorclass_init_spec_witness :
    (ErrorClass.init ⟨∅, ∅, ∅, ∅, []⟩ ⟨⟨⟨3⟩, ⟨5⟩⟩⟩ "bad").2.row ≤
      (ErrorClass.init ⟨∅, ∅, ∅, ∅, []⟩ ⟨⟨⟨3⟩, ⟨5⟩⟩⟩ "bad").2.row_to ∧
    (ErrorClass.init ⟨∅, ∅, ∅, ∅, []⟩ ⟨⟨⟨3⟩, ⟨5⟩⟩⟩ "bad").2 ∈
      (ErrorClass.init ⟨∅, ∅, ∅, ∅, []⟩ ⟨⟨⟨3⟩, ⟨5⟩⟩⟩ "bad").1.errors :=
  ⟨(errorclass_init_spec ⟨∅, ∅, ∅, ∅, []⟩ ⟨⟨⟨3⟩, ⟨5⟩⟩⟩ "bad").2.2.2.1
      (by decide),
   (errorclass_init_spec ⟨∅, ∅, ∅, ∅, []⟩ ⟨⟨⟨3⟩, ⟨5⟩⟩⟩ "bad").2.2.2.2.1⟩
